import Mathlib

/-!
Shallow embedding of the farm bundler core (crates/core/src/module/mod.rs,
crates/core/src/context/mod.rs, crates/plugin_script/src/lib.rs).

Machine integers are modelled as `Nat` with explicit `% 2^64` where overflow
matters; Rust panics and `Result` errors are modelled with `Except`; the
`HashMap<String, String>` query argument is modelled as an association list.
-/

/-! ## Character-level string splitting

Rust's `str::split(c)` and `Path` component iteration are modelled by an
explicit structural recursion over the character list of the string
(`String.data`), which makes the split/join round-trip provable by induction.
-/

/-- Split a character list at every occurrence of `sep`, keeping empty
segments, exactly like Rust's `str::split`. Never returns the empty list. -/
def splitChar (sep : Char) : List Char → List (List Char)
  | [] => [[]]
  | c :: rest =>
    if c = sep then
      [] :: splitChar sep rest
    else
      match splitChar sep rest with
      | [] => [[c]]
      | p :: ps => (c :: p) :: ps

/-- Join character-list segments with a separator, the inverse of `splitChar`
for separator-free segments. -/
def joinChar (sep : Char) : List (List Char) → List Char
  | [] => []
  | [x] => x
  | x :: xs => x ++ sep :: joinChar sep xs

/-! ## Path model

Unix path conventions (the non-Windows branch of the source): a path is
absolute iff it starts with `/`; path components are the nonempty segments
between `/` separators. -/

/-- `Path::is_absolute` on unix: the path starts with `/`. -/
def isAbsolute (s : String) : Bool :=
  match s.data with
  | '/' :: _ => true
  | _ => false

/-- Path components: nonempty segments between `/` separators. -/
def pathComponents (s : String) : List String :=
  ((splitChar '/' s.data).filter (· ≠ [])).map (fun l => ⟨l⟩)

/-- Join path components with `/`. -/
def joinPath (cs : List String) : String :=
  ⟨joinChar '/' (cs.map String.data)⟩

/-- Count of leading components the two lists agree on. -/
def commonPrefixLen : List String → List String → Nat
  | x :: xs, y :: ys => if x = y then commonPrefixLen xs ys + 1 else 0
  | _, _ => 0

/-- Modelled from the spec: `farmfe_utils::relative` (repository code not under
`src/`). "if the path is absolute, rewrites it relative to `project_root`",
with "root-relative traversal" (`../`) for components of `from` that are not
shared with `to`: drop the common component prefix, then one `..` per
remaining component of `from`, followed by the remaining components of `to`. -/
def relative (fromP toP : String) : String :=
  let fc := pathComponents fromP
  let tc := pathComponents toP
  let n := commonPrefixLen fc tc
  joinPath (List.replicate (fc.length - n) ".." ++ tc.drop n)

/-- One step of logical path resolution: `..` pops the last component, `.` is
skipped, anything else is pushed. -/
def logicalStep (st : List String) (c : String) : List String :=
  if c = ".." then st.dropLast else if c = "." then st else st ++ [c]

/-- Model of `relative_path::RelativePath::to_logical_path` (external crate):
join the relative path onto the absolute `root`, resolving `.` and `..`
logically against the component stack. -/
def toLogicalPath (rel root : String) : String :=
  "/" ++ joinPath ((pathComponents rel).foldl logicalStep (pathComponents root))

/-! ## ModuleId (crates/core/src/module/mod.rs) -/

/-- `crate::config::Mode` (referenced by the source; the enum itself lives in
the config module of the same crate). -/
inductive Mode where
  | Development
  | Production
deriving DecidableEq, Repr

structure ModuleId where
  relative_path : String
  query_string : String
deriving DecidableEq, Repr

/-- Lexicographic order on query pairs, used for the canonical (stable key
ordering) form of a query map. -/
def pairLe (a b : String × String) : Prop :=
  a.1 < b.1 ∨ (a.1 = b.1 ∧ a.2 ≤ b.2)

instance : DecidableRel pairLe := fun a b => by
  unfold pairLe; infer_instance

instance : IsTotal (String × String) pairLe where
  total a b := by
    rcases lt_trichotomy a.1 b.1 with h | h | h
    · exact Or.inl (Or.inl h)
    · rcases le_total a.2 b.2 with h2 | h2
      · exact Or.inl (Or.inr ⟨h, h2⟩)
      · exact Or.inr (Or.inr ⟨h.symm, h2⟩)
    · exact Or.inr (Or.inl h)

instance : IsTrans (String × String) pairLe where
  trans a b c hab hbc := by
    rcases hab with h1 | ⟨h1, h1'⟩
    · rcases hbc with h2 | ⟨h2, _⟩
      · exact Or.inl (h1.trans h2)
      · exact Or.inl (h2 ▸ h1)
    · rcases hbc with h2 | ⟨h2, h2'⟩
      · exact Or.inl (h1 ▸ h2)
      · exact Or.inr ⟨h1.trans h2, h1'.trans h2'⟩

instance : IsAntisymm (String × String) pairLe where
  antisymm a b hab hba := by
    rcases hab with h1 | ⟨h1, h1'⟩
    · rcases hba with h2 | ⟨h2, _⟩
      · exact absurd (h1.trans h2) (lt_irrefl _)
      · exact absurd h1 (h2 ▸ lt_irrefl _)
    · rcases hba with h2 | ⟨h2, h2'⟩
      · exact absurd h2 (h1 ▸ lt_irrefl _)
      · exact Prod.ext h1 (le_antisymm h1' h2')

/-- Modelled from the spec: `farmfe_utils::stringify_query` (repository code
not under `src/`). "normalizes the query into a canonical string form (stable
key ordering) so semantically identical queries always hash identically":
sort the pairs, render `k=v` joined by `&` behind a `?`, empty map to the
empty string. -/
def stringifyQuery (query : List (String × String)) : String :=
  match query.insertionSort pairLe with
  | [] => ""
  | q => "?" ++ String.mk (joinChar '&' (q.map (fun kv => (kv.1 ++ "=" ++ kv.2).data)))

/-! ## Blake2b with variable output length (the `blake2` crate's `Blake2bVar`)

Faithful implementation of RFC 7693 Blake2b (no key), over `Nat` with
explicit reduction mod `2^64`. Verified below against the repository's own
pinned test digest (`"module.html"` hashes to `"5de94ab0"` with 4-byte
output). -/

/-- `2^64`, the modulus for 64-bit words. -/
def MOD64 : Nat := 18446744073709551616

/-- Rotate a 64-bit word right by `n` bits. -/
def rotr64 (x n : Nat) : Nat :=
  ((x >>> n) ||| (x <<< (64 - n))) % MOD64

/-- Blake2b initialization vector. -/
def blakeIV : List Nat :=
  [0x6a09e667f3bcc908, 0xbb67ae8584caa73b, 0x3c6ef372fe94f82b, 0xa54ff53a5f1d36f1,
   0x510e527fade682d1, 0x9b05688c2b3e6c1f, 0x1f83d9abfb41bd6b, 0x5be0cd19137e2179]

/-- Blake2 message schedule permutations. -/
def blakeSigma : List (List Nat) :=
  [[0, 1, 2, 3, 4, 5, 6, 7, 8, 9, 10, 11, 12, 13, 14, 15],
   [14, 10, 4, 8, 9, 15, 13, 6, 1, 12, 0, 2, 11, 7, 5, 3],
   [11, 8, 12, 0, 5, 2, 15, 13, 10, 14, 3, 6, 7, 1, 9, 4],
   [7, 9, 3, 1, 13, 12, 11, 14, 2, 6, 5, 10, 4, 0, 15, 8],
   [9, 0, 5, 7, 2, 4, 10, 15, 14, 1, 11, 12, 6, 8, 3, 13],
   [2, 12, 6, 10, 0, 11, 8, 3, 4, 13, 7, 5, 15, 14, 1, 9],
   [12, 5, 1, 15, 14, 13, 4, 10, 0, 7, 6, 3, 9, 2, 8, 11],
   [13, 11, 7, 14, 12, 1, 3, 9, 5, 0, 15, 4, 8, 6, 2, 10],
   [6, 15, 14, 9, 11, 3, 0, 8, 12, 2, 13, 7, 1, 4, 10, 5],
   [10, 2, 8, 4, 7, 6, 1, 5, 15, 11, 9, 14, 3, 12, 13, 0]]

/-- Decode up to 8 bytes, little endian, into a 64-bit word. -/
def le64Decode (bs : List Nat) : Nat :=
  bs.foldr (fun b acc => acc * 256 + b) 0

/-- Encode a 64-bit word as 8 little-endian bytes. -/
def le64Encode (w : Nat) : List Nat :=
  [w % 256, w / 256 % 256, w / 256 ^ 2 % 256, w / 256 ^ 3 % 256,
   w / 256 ^ 4 % 256, w / 256 ^ 5 % 256, w / 256 ^ 6 % 256, w / 256 ^ 7 % 256]

/-- The Blake2b G mixing function on the 16-word working vector. -/
def gMix (v : List Nat) (a b c d x y : Nat) : List Nat :=
  let va := (v.getD a 0 + v.getD b 0 + x) % MOD64
  let vd := rotr64 (Nat.xor (v.getD d 0) va) 32
  let vc := (v.getD c 0 + vd) % MOD64
  let vb := rotr64 (Nat.xor (v.getD b 0) vc) 24
  let va2 := (va + vb + y) % MOD64
  let vd2 := rotr64 (Nat.xor vd va2) 16
  let vc2 := (vc + vd2) % MOD64
  let vb2 := rotr64 (Nat.xor vb vc2) 63
  (((v.set a va2).set b vb2).set c vc2).set d vd2

/-- One Blake2b round: mix columns then diagonals using schedule row `r % 10`. -/
def blakeRound (m : List Nat) (v : List Nat) (r : Nat) : List Nat :=
  let s := blakeSigma.getD (r % 10) []
  let g := fun (v : List Nat) (i a b c d : Nat) =>
    gMix v a b c d (m.getD (s.getD (2 * i) 0) 0) (m.getD (s.getD (2 * i + 1) 0) 0)
  let v1 := g v 0 0 4 8 12
  let v2 := g v1 1 1 5 9 13
  let v3 := g v2 2 2 6 10 14
  let v4 := g v3 3 3 7 11 15
  let v5 := g v4 4 0 5 10 15
  let v6 := g v5 5 1 6 11 12
  let v7 := g v6 6 2 7 8 13
  let v8 := g v7 7 3 4 9 14
  v8

/-- The Blake2b compression function F on a 128-byte block; `t` is the byte
offset counter and `last` the final-block flag. -/
def blakeCompress (h : List Nat) (block : List Nat) (t : Nat) (last : Bool) : List Nat :=
  let m := (List.range 16).map (fun i => le64Decode ((block.drop (8 * i)).take 8))
  let v0 := h ++ blakeIV
  let v1 := v0.set 12 (Nat.xor (v0.getD 12 0) (t % MOD64))
  let v2 := v1.set 13 (Nat.xor (v1.getD 13 0) (t / MOD64))
  let v3 := if last then v2.set 14 (Nat.xor (v2.getD 14 0) (MOD64 - 1)) else v2
  let vf := (List.range 12).foldl (fun v r => blakeRound m v r) v3
  (List.range 8).map (fun i => Nat.xor (h.getD i 0) (Nat.xor (vf.getD i 0) (vf.getD (i + 8) 0)))

/-- Zero-pad a partial block to 128 bytes. -/
def padBlock (bs : List Nat) : List Nat :=
  bs ++ List.replicate (128 - bs.length) 0

/-- Compress all message blocks; the final (possibly partial, possibly empty)
block is compressed with the final-block flag and the total byte count. The
`fuel` argument only makes the recursion structural; called with
`fuel ≥ msg.length / 128` it never runs out. -/
def blakeLoop : Nat → List Nat → List Nat → Nat → List Nat
  | 0, h, msg, processed => blakeCompress h (padBlock msg) (processed + msg.length) true
  | fuel + 1, h, msg, processed =>
    if msg.length ≤ 128 then
      blakeCompress h (padBlock msg) (processed + msg.length) true
    else
      blakeLoop fuel (blakeCompress h (msg.take 128) (processed + 128) false)
        (msg.drop 128) (processed + 128)

/-- Blake2b with `nn`-byte output and no key: parameter-block word
`0x0101kknn` with `kk = 0` is xored into `h0`; the digest is the first `nn`
bytes of the little-endian encoding of the final state. -/
def blake2bVar (nn : Nat) (msg : List Nat) : List Nat :=
  let h0 := blakeIV.set 0 (Nat.xor (blakeIV.getD 0 0) (Nat.xor 0x01010000 nn))
  let hf := blakeLoop msg.length h0 msg 0
  ((hf.map le64Encode).flatten).take nn

/-- Lowercase hex digit for a value below 16. -/
def hexDigitChar (n : Nat) : Char :=
  "0123456789abcdef".data.getD n '0'

/-- Two lowercase hex digits of one byte (the `hex` crate's `encode`). -/
def hexByte (b : Nat) : List Char :=
  [hexDigitChar (b / 16), hexDigitChar (b % 16)]

/-- Hex-encode a byte list, two digits per byte. -/
def hexEncode (bs : List Nat) : String :=
  ⟨(bs.map hexByte).flatten⟩

/-- UTF-8 encoding of a unicode code point, as bytes. -/
def utf8EncodeChar (n : Nat) : List Nat :=
  if n < 0x80 then [n]
  else if n < 0x800 then [0xC0 + n / 64, 0x80 + n % 64]
  else if n < 0x10000 then [0xE0 + n / 4096, 0x80 + n / 64 % 64, 0x80 + n % 64]
  else [0xF0 + n / 262144, 0x80 + n / 4096 % 64, 0x80 + n / 64 % 64, 0x80 + n % 64]

/-- UTF-8 bytes of a string (Rust's `str::as_bytes`). -/
def utf8Bytes (s : String) : List Nat :=
  (s.data.map (fun c => utf8EncodeChar c.toNat)).flatten

/-! ## ModuleId operations (crates/core/src/module/mod.rs) -/

/-- `const LEN: usize = 4` — the truncated digest length. -/
def LEN : Nat := 4

/-- `ModuleId::new`: relativize the resolved path against `cwd` when it is
absolute, keep it verbatim otherwise; stringify the query map. -/
def ModuleId.new (resolved_path : String) (query : List (String × String))
    (cwd : String) : ModuleId :=
  let relative_path :=
    if isAbsolute resolved_path then relative cwd resolved_path else resolved_path
  { relative_path := relative_path, query_string := stringifyQuery query }

/-- `impl ToString for ModuleId`: `format!("{}{}", relative_path, query_string)`. -/
def ModuleId.toString (m : ModuleId) : String :=
  m.relative_path ++ m.query_string

/-- `ModuleId::hash`: 4-byte Blake2bVar digest of the development string,
hex-encoded. -/
def ModuleId.hash (m : ModuleId) : String :=
  hexEncode (blake2bVar LEN (utf8Bytes m.toString))

/-- `ModuleId::id`: development form is `to_string`, production form is the
hash. -/
def ModuleId.id (m : ModuleId) (mode : Mode) : String :=
  match mode with
  | Mode.Development => m.toString
  | Mode.Production => m.hash

/-- `ModuleId::resolved_path`: join the stored relative path back onto `root`,
resolving `.` and `..` logically. -/
def ModuleId.resolved_path (m : ModuleId) (root : String) : String :=
  toLogicalPath m.relative_path root

/-- `impl From<&str> for ModuleId`: when the string contains `?`, take the
first two segments of `split('?')` as relative path and query string. -/
def ModuleId.fromString (rp : String) : ModuleId :=
  if rp.data.contains '?' then
    let parts := splitChar '?' rp.data
    { relative_path := ⟨parts.getD 0 []⟩, query_string := ⟨parts.getD 1 []⟩ }
  else
    { relative_path := rp, query_string := "" }

/-- `impl From<String> for ModuleId` delegates to `From<&str>`. -/
def ModuleId.fromStringOwned (rp : String) : ModuleId :=
  ModuleId.fromString rp

/-! ## ModuleType and module system (crates/core/src/module/mod.rs) -/

inductive ModuleType where
  | Js
  | Jsx
  | Ts
  | Tsx
  | Css
  | Html
  | Asset
  | Custom : String → ModuleType
deriving DecidableEq, Repr

/-- `ModuleType::is_typescript`: `matches!(self, Ts) || matches!(self, Tsx)`. -/
def ModuleType.is_typescript : ModuleType → Bool
  | ModuleType.Ts => true
  | ModuleType.Tsx => true
  | _ => false

/-- `ModuleType::is_script`: `matches!(self, Js | Jsx | Ts | Tsx)`. -/
def ModuleType.is_script : ModuleType → Bool
  | ModuleType.Js => true
  | ModuleType.Jsx => true
  | ModuleType.Ts => true
  | ModuleType.Tsx => true
  | _ => false

/-- `ModuleType::from_ext`: map a file extension to a module type, any
unrecognized extension to `Custom`. -/
def ModuleType.from_ext (ext : String) : ModuleType :=
  if ext = "js" then ModuleType.Js
  else if ext = "jsx" then ModuleType.Jsx
  else if ext = "ts" then ModuleType.Ts
  else if ext = "tsx" then ModuleType.Tsx
  else if ext = "css" then ModuleType.Css
  else if ext = "html" then ModuleType.Html
  else ModuleType.Custom ext

inductive ModuleSystem where
  | EsModule
  | CommonJs
  | Hybrid
  | Custom : String → ModuleSystem
deriving DecidableEq, Repr

/-! ## Abstract swc ASTs

The swc AST types are external crates; they are modelled by the observables
the claims speak about: the statement list (each item either a
module-declaration, i.e. import/export, or a plain statement), and whether
the tree still contains type annotations / JSX syntax. -/

/-- `swc_ecma_ast::ModuleItem`: a module declaration (import/export) or a
plain statement. -/
inductive ModuleItem where
  | moduleDecl
  | stmt
deriving DecidableEq, Repr

/-- Abstract model of `swc_ecma_ast::Module`. -/
structure SwcModule where
  body : List ModuleItem
  hasTypeAnnotations : Bool
  hasJsxSyntax : Bool
deriving DecidableEq, Repr

/-- Abstract model of `swc_css_ast::Stylesheet`. -/
structure Stylesheet where
  source : String
deriving DecidableEq, Repr

/-- Abstract model of `swc_html_ast::Document`. -/
structure Document where
  source : String
deriving DecidableEq, Repr

/-! ## ModuleMetaData and its typed accessors (crates/core/src/module/mod.rs) -/

structure ScriptModuleMetaData where
  ast : SwcModule
  top_level_mark : Nat
  unresolved_mark : Nat
  module_system : ModuleSystem
deriving DecidableEq, Repr

structure CssModuleMetaData where
  ast : Stylesheet
deriving DecidableEq, Repr

structure HtmlModuleMetaData where
  ast : Document
deriving DecidableEq, Repr

/-- Model of `Box<dyn SerializeCustomModuleMetaData>`: a type-erased value
carrying its runtime type tag (used by the checked `downcast`) and an opaque
payload. -/
structure CustomBox where
  typeName : String
  payload : String
deriving DecidableEq, Repr

inductive ModuleMetaData where
  | Script : ScriptModuleMetaData → ModuleMetaData
  | Css : CssModuleMetaData → ModuleMetaData
  | Html : HtmlModuleMetaData → ModuleMetaData
  | Custom : CustomBox → ModuleMetaData
deriving DecidableEq, Repr

/-- `ModuleMetaData::as_script`: `panic!("ModuleMetaData is not Script")` on a
non-`Script` variant, modelled as `Except.error`. -/
def ModuleMetaData.as_script : ModuleMetaData → Except String ScriptModuleMetaData
  | ModuleMetaData.Script script => Except.ok script
  | _ => Except.error "ModuleMetaData is not Script"

/-- `ModuleMetaData::as_script_mut` (same selection logic as `as_script`). -/
def ModuleMetaData.as_script_mut : ModuleMetaData → Except String ScriptModuleMetaData
  | ModuleMetaData.Script script => Except.ok script
  | _ => Except.error "ModuleMetaData is not Script"

/-- `ModuleMetaData::as_css`: panics (`Except.error`) unless the `Css`
variant is active. -/
def ModuleMetaData.as_css : ModuleMetaData → Except String CssModuleMetaData
  | ModuleMetaData.Css css => Except.ok css
  | _ => Except.error "ModuleMetaData is not css"

/-- `ModuleMetaData::as_css_mut`. -/
def ModuleMetaData.as_css_mut : ModuleMetaData → Except String CssModuleMetaData
  | ModuleMetaData.Css css => Except.ok css
  | _ => Except.error "ModuleMetaData is not css"

/-- `ModuleMetaData::as_html`. -/
def ModuleMetaData.as_html : ModuleMetaData → Except String HtmlModuleMetaData
  | ModuleMetaData.Html html => Except.ok html
  | _ => Except.error "ModuleMetaData is not html"

/-- `ModuleMetaData::as_html_mut`. -/
def ModuleMetaData.as_html_mut : ModuleMetaData → Except String HtmlModuleMetaData
  | ModuleMetaData.Html html => Except.ok html
  | _ => Except.error "ModuleMetaData is not html"

/-- `ModuleMetaData::as_custom::<T>`: panics unless the `Custom` variant is
active AND the checked downcast to `T` (modelled by the runtime type tag
`tyName`) succeeds. -/
def ModuleMetaData.as_custom (tyName : String) : ModuleMetaData → Except String String
  | ModuleMetaData.Custom custom =>
    if custom.typeName = tyName then Except.ok custom.payload
    else Except.error "custom meta type is not serializable"
  | _ => Except.error "ModuleMetaData is not Custom"

/-- `ModuleMetaData::as_custom_mut::<T>` (same selection logic). -/
def ModuleMetaData.as_custom_mut (tyName : String) : ModuleMetaData → Except String String
  | ModuleMetaData.Custom custom =>
    if custom.typeName = tyName then Except.ok custom.payload
    else Except.error "custom meta type is not serializable"
  | _ => Except.error "ModuleMetaData is not Custom"

/-! ## Script plugin (crates/plugin_script/src/lib.rs) -/

/-- Modelled from the spec: `farmfe_toolkit::script::syntax_from_module_type`
(repository code not under `src/`): a parse syntax exists exactly for the
recognized script module types. -/
inductive ScriptSyntax where
  | Es : Bool → ScriptSyntax
  | Typescript : Bool → ScriptSyntax
deriving DecidableEq, Repr

/-- Modelled from the spec: `syntax_from_module_type` returns a syntax for
script module types (the `Bool` is the jsx/tsx flavour) and `None` otherwise. -/
def syntaxFromModuleType : ModuleType → Option ScriptSyntax
  | ModuleType.Js => some (ScriptSyntax.Es false)
  | ModuleType.Jsx => some (ScriptSyntax.Es true)
  | ModuleType.Ts => some (ScriptSyntax.Typescript false)
  | ModuleType.Tsx => some (ScriptSyntax.Typescript true)
  | _ => none

/-- Modelled from the spec: `swc_ecma_transforms::resolver` (external crate)
"assigns two fresh, globally-unique scope marks … used later for safe
identifier renaming"; it annotates identifier scopes and leaves the statement
list and item kinds unchanged, which is all this model observes. -/
def resolver (_unresolved_mark _top_level_mark : Nat) (_typescript : Bool)
    (m : SwcModule) : SwcModule :=
  m

/-- `FarmPluginScript::parse`, for an input that `parse_module` parsed
successfully into `parsedAst` and fresh marks from `Mark::new()`: run the
resolver, then classify the module system by presence of any
module-declaration statement. Returns `none` (not applicable) when no syntax
exists for the module type. -/
def FarmPluginScript.parse (module_type : ModuleType) (parsedAst : SwcModule)
    (top_level_mark unresolved_mark : Nat) : Option ModuleMetaData :=
  match syntaxFromModuleType module_type with
  | some _ =>
    let swc_module := resolver unresolved_mark top_level_mark
      module_type.is_typescript parsedAst
    let module_system :=
      if swc_module.body.any (fun item =>
          match item with
          | ModuleItem.moduleDecl => true
          | ModuleItem.stmt => false)
      then ModuleSystem.EsModule
      else ModuleSystem.CommonJs
    some (ModuleMetaData.Script
      { ast := swc_module
        top_level_mark := top_level_mark
        unresolved_mark := unresolved_mark
        module_system := module_system })
  | none => none

/-- Modelled from the spec: `swc_ecma_transforms::typescript::strip` (external
crate), "stripping type annotations for a typed-script variant". -/
def strip (_top_level_mark : Nat) (ast : SwcModule) : SwcModule :=
  { ast with hasTypeAnnotations := false }

/-- Modelled from the spec: `swc_ecma_transforms::typescript::strip_with_jsx`
(external crate): strips type annotations while leaving JSX syntax intact. -/
def stripWithJsx (_top_level_mark : Nat) (ast : SwcModule) : SwcModule :=
  { ast with hasTypeAnnotations := false }

/-- Modelled from the spec: `swc_ecma_transforms::react::react` (external
crate), "rewriting JSX syntax into plain calls". -/
def react (_top_level_mark : Nat) (ast : SwcModule) : SwcModule :=
  { ast with hasJsxSyntax := false }

/-- `FarmPluginScript::process_module`: guarded by
`param.module_type.is_typescript()`; inside the guard, matches on the module
type and mutates the stored script AST in place (modelled by returning the
updated metadata). The `as_script` / `as_script_mut` accessors panic
(`Except.error`) when the metadata is not the `Script` variant. -/
def FarmPluginScript.process_module (module_type : ModuleType)
    (meta : ModuleMetaData) : Except String ModuleMetaData :=
  if module_type.is_typescript then
    match meta.as_script with
    | Except.error e => Except.error e
    | Except.ok script =>
      let top_level_mark := script.top_level_mark
      let ast := script.ast
      let ast2 :=
        match module_type with
        | ModuleType.Js => ast
        | ModuleType.Jsx => react top_level_mark ast
        | ModuleType.Ts => strip top_level_mark ast
        | ModuleType.Tsx => react top_level_mark (stripWithJsx top_level_mark ast)
        | _ => ast
      Except.ok (ModuleMetaData.Script { script with ast := ast2 })
  else
    Except.ok meta

/-- `PluginLoadHookResult`: file content plus derived module type. -/
structure PluginLoadHookResult where
  content : String
  module_type : ModuleType
deriving DecidableEq, Repr

/-- Modelled from the spec: `Path::extension` for
`farmfe_toolkit::script::module_type_from_id` — the text after the last `.`
of the last path component, or `""` when that component has no `.`. -/
def pathExtension (p : String) : String :=
  let fileName := (splitChar '/' p.data).getLastD []
  let parts := splitChar '.' fileName
  if parts.length ≤ 1 then "" else ⟨parts.getLastD []⟩

/-- Modelled from the spec: `farmfe_toolkit::script::module_type_from_id`
(repository code not under `src/`): "determines module type from file
extension", via `ModuleType::from_ext`. -/
def moduleTypeFromId (resolved_path : String) : ModuleType :=
  ModuleType.from_ext (pathExtension resolved_path)

/-- `FarmPluginScript::load`: claims the hook exactly when the module type
derived from the path extension is a script type, in which case it reads the
file (`read_file_utf8`, modelled by the ambient `readFile` oracle); any other
extension yields `Ok(None)` without reading. -/
def FarmPluginScript.load (readFile : String → Except String String)
    (resolved_path : String) : Except String (Option PluginLoadHookResult) :=
  let module_type := moduleTypeFromId resolved_path
  if module_type.is_script then
    match readFile resolved_path with
    | Except.error e => Except.error e
    | Except.ok content =>
      Except.ok (some { content := content, module_type := module_type })
  else
    Except.ok none

/-! ## CompilationContext (crates/core/src/context/mod.rs) -/

/-- Modelled from the spec: `farmfe_core::config::Config` (repository code not
under `src/`), "a configuration value" the plugins' config hooks may mutate. -/
structure Config where
  mode : Mode
  root : String
deriving DecidableEq, Repr

/-- Modelled from the spec: a plugin's capability interface, reduced to the
hook CompilationContext::new exercises: the `config` hook, which "may mutate
the shared configuration in place" or fail. -/
structure Plugin where
  name : String
  config : Config → Except String Config

/-- Modelled from the spec: `PluginDriver` (repository code not under `src/`),
an ordered list of plugins fixed at construction. -/
structure PluginDriver where
  plugins : List Plugin

def PluginDriver.new (plugins : List Plugin) : PluginDriver :=
  { plugins := plugins }

/-- Modelled from the spec: the all-plugins-sequential `config` hook
dispatch — "every plugin is invoked in order, each may mutate shared state …
no plugin may stop the sequence except by failing". -/
def PluginDriver.config (d : PluginDriver) (c : Config) : Except String Config :=
  d.plugins.foldlM (fun cfg p => p.config cfg) c

structure ModuleGraph where
  modules : List ModuleId

def ModuleGraph.new : ModuleGraph := { modules := [] }

structure ModuleGroupMap where
  groups : List String

def ModuleGroupMap.new : ModuleGroupMap := { groups := [] }

structure ResourcePotGraph where
  pots : List String

def ResourcePotGraph.new : ResourcePotGraph := { pots := [] }

structure CacheManager where
  entries : List (String × ModuleId)

def CacheManager.new : CacheManager := { entries := [] }

structure ContextMetaData where
  custom : List (String × String)

def ContextMetaData.new : ContextMetaData := { custom := [] }

/-- `CompilationContext` with the lock wrappers erased (they guard access but
carry no algorithmic content in the construction path). -/
structure CompilationContext where
  config : Config
  module_graph : ModuleGraph
  module_group_map : ModuleGroupMap
  plugin_driver : PluginDriver
  resource_pot_graph : ResourcePotGraph
  resources_map : List (String × String)
  cache_manager : CacheManager
  meta : ContextMetaData

/-- `CompilationContext::new`: build the plugin driver, run every plugin's
`config` hook over the configuration first, propagate the first failure
(`?`), and only on success construct the context with fresh graphs/cache. -/
def CompilationContext.new (config : Config) (plugins : List Plugin) :
    Except String CompilationContext :=
  let plugin_driver := PluginDriver.new plugins
  match plugin_driver.config config with
  | Except.error e => Except.error e
  | Except.ok cfg =>
    Except.ok
      { config := cfg
        module_graph := ModuleGraph.new
        module_group_map := ModuleGroupMap.new
        plugin_driver := plugin_driver
        resource_pot_graph := ResourcePotGraph.new
        resources_map := []
        cache_manager := CacheManager.new
        meta := ContextMetaData.new }

/-! # Theorems -/

/-! ## Split/join infrastructure lemmas -/

theorem splitChar_ne_nil (sep : Char) (l : List Char) : splitChar sep l ≠ [] := by
  cases l with
  | nil => simp [splitChar]
  | cons c rest =>
    simp only [splitChar]
    split
    · simp
    · cases h : splitChar sep rest <;> simp

theorem splitChar_of_not_mem (sep : Char) (l : List Char) (h : sep ∉ l) :
    splitChar sep l = [l] := by
  induction l with
  | nil => rfl
  | cons c rest ih =>
    simp only [List.mem_cons, not_or] at h
    have hc : ¬ c = sep := fun e => h.1 e.symm
    have ih' := ih h.2
    simp only [splitChar, if_neg hc, ih']

theorem splitChar_append_sep (sep : Char) (a b : List Char) (h : sep ∉ a) :
    splitChar sep (a ++ sep :: b) = a :: splitChar sep b := by
  induction a with
  | nil => simp [splitChar]
  | cons c rest ih =>
    simp only [List.mem_cons, not_or] at h
    have hc : ¬ c = sep := fun e => h.1 e.symm
    have ih' := ih h.2
    simp only [List.cons_append, splitChar, List.append_eq, if_neg hc, ih']

theorem splitChar_joinChar (sep : Char) (ls : List (List Char)) (hne : ls ≠ [])
    (h : ∀ l ∈ ls, sep ∉ l) : splitChar sep (joinChar sep ls) = ls := by
  induction ls with
  | nil => exact absurd rfl hne
  | cons x xs ih =>
    cases xs with
    | nil => exact splitChar_of_not_mem sep x (h x (by simp))
    | cons y ys =>
      have hx : sep ∉ x := h x (by simp)
      show splitChar sep (x ++ sep :: joinChar sep (y :: ys)) = _
      rw [splitChar_append_sep sep _ _ hx]
      rw [ih (by simp) (fun l hl => h l (List.mem_cons_of_mem x hl))]

/-- First segment of a split is the longest separator-free prefix. -/
theorem splitChar_head (sep : Char) (l : List Char) :
    (splitChar sep l).getD 0 [] = l.takeWhile (fun c => !(c == sep)) := by
  induction l with
  | nil => rfl
  | cons c rest ih =>
    simp only [splitChar, List.takeWhile]
    by_cases hc : c = sep
    · subst hc; simp
    · simp only [if_neg hc]
      have hbeq : (c == sep) = false := by simp [hc]
      rw [hbeq]
      simp only [Bool.not_false]
      cases hs : splitChar sep rest with
      | nil => exact absurd hs (splitChar_ne_nil sep rest)
      | cons p ps =>
        simp only [List.getD_cons_zero]
        rw [hs] at ih
        simp only [List.getD_cons_zero] at ih
        rw [ih]

/-! ## Path lemmas -/

theorem pathComponents_joinPath (cs : List String)
    (h : ∀ c ∈ cs, c.data ≠ [] ∧ '/' ∉ c.data) :
    pathComponents (joinPath cs) = cs := by
  cases cs with
  | nil => rfl
  | cons x xs =>
    unfold pathComponents joinPath
    have hne : (x :: xs).map String.data ≠ [] := by simp
    have hmem : ∀ l ∈ (x :: xs).map String.data, '/' ∉ l := by
      intro l hl
      rcases List.mem_map.mp hl with ⟨c, hc, rfl⟩
      exact (h c hc).2
    rw [show (String.mk (joinChar '/' ((x :: xs).map String.data))).data
        = joinChar '/' ((x :: xs).map String.data) from rfl]
    rw [splitChar_joinChar '/' _ hne hmem]
    rw [List.filter_eq_self.mpr ?hfil]
    case hfil =>
      intro l hl
      rcases List.mem_map.mp hl with ⟨c, hc, rfl⟩
      simpa using (h c hc).1
    rw [List.map_map]
    exact List.map_id _

theorem pathComponents_slash (s : String) :
    pathComponents ("/" ++ s) = pathComponents s := by
  unfold pathComponents
  rw [String.data_append]
  show ((splitChar '/' ('/' :: s.data)).filter _).map _ = _
  simp [splitChar]

theorem isAbsolute_slash (s : String) : isAbsolute ("/" ++ s) = true := by
  unfold isAbsolute
  rw [String.data_append]
  rfl

theorem commonPrefixLen_le_left : ∀ (a b : List String), commonPrefixLen a b ≤ a.length := by
  intro a
  induction a with
  | nil => intro b; cases b <;> simp [commonPrefixLen]
  | cons x xs ih =>
    intro b
    cases b with
    | nil => simp [commonPrefixLen]
    | cons y ys =>
      unfold commonPrefixLen
      split
      · have := ih ys
        simp only [List.length_cons]
        omega
      · simp

theorem take_commonPrefixLen_eq : ∀ (a b : List String),
    a.take (commonPrefixLen a b) = b.take (commonPrefixLen a b) := by
  intro a
  induction a with
  | nil => intro b; cases b <;> simp [commonPrefixLen]
  | cons x xs ih =>
    intro b
    cases b with
    | nil => simp [commonPrefixLen]
    | cons y ys =>
      unfold commonPrefixLen
      split
      · rename_i heq
        simp only [List.take_succ_cons, heq]
        rw [ih ys]
      · simp

theorem foldl_logicalStep_replicate : ∀ (k : Nat) (st rest : List String),
    rest.length = k →
    (List.replicate k "..").foldl logicalStep (st ++ rest) = st := by
  intro k
  induction k with
  | zero =>
    intro st rest h
    rw [List.length_eq_zero] at h
    subst h
    simp
  | succ n ih =>
    intro st rest h
    have hne : rest ≠ [] := by
      intro e
      subst e
      simp at h
    obtain ⟨ys, y, rfl⟩ : ∃ ys y, rest = ys ++ [y] :=
      ⟨rest.dropLast, rest.getLast hne, (List.dropLast_append_getLast hne).symm⟩
    rw [List.replicate_succ, List.foldl_cons]
    have hstep : logicalStep (st ++ (ys ++ [y])) ".." = st ++ ys := by
      unfold logicalStep
      rw [if_pos rfl, ← List.append_assoc]
      exact List.dropLast_concat
    rw [hstep]
    apply ih
    simpa using h

theorem foldl_logicalStep_push : ∀ (cs st : List String),
    (∀ c ∈ cs, c ≠ ".." ∧ c ≠ ".") →
    cs.foldl logicalStep st = st ++ cs := by
  intro cs
  induction cs with
  | nil => simp
  | cons c rest ih =>
    intro st h
    rw [List.foldl_cons]
    have hc := h c (by simp)
    have hstep : logicalStep st c = st ++ [c] := by
      unfold logicalStep
      rw [if_neg hc.1, if_neg hc.2]
    rw [hstep, ih _ (fun d hd => h d (by simp [hd]))]
    simp

theorem stringifyQuery_perm (q q' : List (String × String)) (h : q.Perm q') :
    stringifyQuery q = stringifyQuery q' := by
  have hsort : q.insertionSort pairLe = q'.insertionSort pairLe :=
    List.eq_of_perm_of_sorted
      (((List.perm_insertionSort pairLe q).trans h).trans
        (List.perm_insertionSort pairLe q').symm)
      (List.sorted_insertionSort pairLe q) (List.sorted_insertionSort pairLe q')
  unfold stringifyQuery
  rw [hsort]

/-! ## Claim theorems -/

/-- C1: for every absolute resolved path `p` (given by its normalized
components `pcs`), query map `q`, and project root (components `rcs`),
`resolved_path` applied to `ModuleId::new(p, q, root)` with the same root
returns `p` again: `resolved_path` is the exact inverse of construction. -/
theorem moduleId_resolved_path_roundtrip (pcs rcs : List String)
    (q : List (String × String))
    (hp : ∀ c ∈ pcs, c.data ≠ [] ∧ c ≠ "." ∧ c ≠ ".." ∧ '/' ∉ c.data)
    (hr : ∀ c ∈ rcs, c.data ≠ [] ∧ c ≠ "." ∧ c ≠ ".." ∧ '/' ∉ c.data) :
    (ModuleId.new ("/" ++ joinPath pcs) q ("/" ++ joinPath rcs)).resolved_path
      ("/" ++ joinPath rcs) = "/" ++ joinPath pcs := by
  have hpj : pathComponents ("/" ++ joinPath pcs) = pcs := by
    rw [pathComponents_slash]
    exact pathComponents_joinPath pcs (fun c hc => ⟨(hp c hc).1, (hp c hc).2.2.2⟩)
  have hrj : pathComponents ("/" ++ joinPath rcs) = rcs := by
    rw [pathComponents_slash]
    exact pathComponents_joinPath rcs (fun c hc => ⟨(hr c hc).1, (hr c hc).2.2.2⟩)
  have habs : isAbsolute ("/" ++ joinPath pcs) = true := isAbsolute_slash _
  have hrel : (ModuleId.new ("/" ++ joinPath pcs) q ("/" ++ joinPath rcs)).relative_path
      = joinPath (List.replicate (rcs.length - commonPrefixLen rcs pcs) ".."
          ++ pcs.drop (commonPrefixLen rcs pcs)) := by
    simp only [ModuleId.new, habs, if_true, relative, hpj, hrj]
  unfold ModuleId.resolved_path toLogicalPath
  rw [hrel, hrj]
  have hgood : ∀ c ∈ List.replicate (rcs.length - commonPrefixLen rcs pcs) ".."
      ++ pcs.drop (commonPrefixLen rcs pcs), c.data ≠ [] ∧ '/' ∉ c.data := by
    intro c hc
    rcases List.mem_append.mp hc with hc | hc
    · rw [List.eq_of_mem_replicate hc]
      exact ⟨by decide, by decide⟩
    · have h := hp c (List.mem_of_mem_drop hc)
      exact ⟨h.1, h.2.2.2⟩
  rw [pathComponents_joinPath _ hgood]
  rw [List.foldl_append]
  have hfold1 : (List.replicate (rcs.length - commonPrefixLen rcs pcs) "..").foldl
      logicalStep rcs = rcs.take (commonPrefixLen rcs pcs) := by
    have hbase := foldl_logicalStep_replicate (rcs.length - commonPrefixLen rcs pcs)
      (rcs.take (commonPrefixLen rcs pcs)) (rcs.drop (commonPrefixLen rcs pcs))
      (by rw [List.length_drop])
    rw [List.take_append_drop] at hbase
    exact hbase
  rw [hfold1]
  rw [foldl_logicalStep_push _ _
    (fun c hc => (fun h => ⟨h.2.2.1, h.2.1⟩) (hp c (List.mem_of_mem_drop hc)))]
  rw [take_commonPrefixLen_eq rcs pcs, List.take_append_drop]

/-- Witness for C1 at the repository's own test input. -/
theorem moduleId_resolved_path_roundtrip_witness :
    (ModuleId.new ("/" ++ joinPath ["root", "module.html"]) []
        ("/" ++ joinPath ["root"])).resolved_path ("/" ++ joinPath ["root"])
      = "/" ++ joinPath ["root", "module.html"] :=
  moduleId_resolved_path_roundtrip ["root", "module.html"] ["root"] []
    (by decide) (by decide)

/-- C10: `ModuleId::new` is total (it is a Lean function); an absolute
resolved path is rewritten relative to the project root, a relative one is
stored verbatim with the root ignored, and permuted (semantically identical)
query maps produce equal ModuleIds. -/
theorem moduleId_new_spec (resolved_path : String) (q : List (String × String))
    (cwd : String) :
    (isAbsolute resolved_path = true →
      (ModuleId.new resolved_path q cwd).relative_path = relative cwd resolved_path) ∧
    (isAbsolute resolved_path = false →
      (ModuleId.new resolved_path q cwd).relative_path = resolved_path) ∧
    (∀ q', q.Perm q' →
      ModuleId.new resolved_path q cwd = ModuleId.new resolved_path q' cwd) := by
  refine ⟨?_, ?_, ?_⟩
  · intro h
    simp [ModuleId.new, h]
  · intro h
    simp [ModuleId.new, h]
  · intro q' hq
    unfold ModuleId.new
    rw [stringifyQuery_perm q q' hq]

/-- Witness for C10: an absolute path, plus two permuted query maps. -/
theorem moduleId_new_spec_witness :
    (ModuleId.new "/root/a.js" [("b", "2"), ("a", "1")] "/root").relative_path
        = relative "/root" "/root/a.js" ∧
    ModuleId.new "/root/a.js" [("b", "2"), ("a", "1")] "/root"
        = ModuleId.new "/root/a.js" [("a", "1"), ("b", "2")] "/root" :=
  ⟨(moduleId_new_spec "/root/a.js" [("b", "2"), ("a", "1")] "/root").1 (by decide),
   (moduleId_new_spec "/root/a.js" [("b", "2"), ("a", "1")] "/root").2.2
     [("a", "1"), ("b", "2")] (by decide)⟩

/-- C2 counterexample: on `"a?b?c"` the `From<&str>` construction keeps only
the segment between the first and second `?` as query string (`"b"`), not
everything after the first `?` (`"b?c"`) as the claim states. -/
theorem fromString_drops_after_second_question_mark :
    (ModuleId.fromString "a?b?c").query_string = "b" ∧
    (ModuleId.fromString "a?b?c").query_string ≠ "b?c" ∧
    (ModuleId.fromString "a?b?c").relative_path = "a" := by
  decide

/-- C2 amended: constructing a ModuleId from a combined string splits on the
first `?`; the relative path is everything before it, and the query string is
everything strictly between the first `?` and the next `?` (to the end when
there is no second `?`); with no `?` at all the query string is empty. -/
theorem fromString_splits_on_first_question_mark (a b : List Char)
    (h : '?' ∉ a) :
    ModuleId.fromString ⟨a ++ '?' :: b⟩
      = { relative_path := ⟨a⟩,
          query_string := ⟨b.takeWhile (fun c => !(c == '?'))⟩ } ∧
    ModuleId.fromString ⟨a⟩ = { relative_path := ⟨a⟩, query_string := "" } := by
  constructor
  · have hcont : (String.mk (a ++ '?' :: b)).data.contains '?' = true :=
      List.elem_eq_true_of_mem (by simp)
    unfold ModuleId.fromString
    rw [show (String.mk (a ++ '?' :: b)).data = a ++ '?' :: b from rfl] at hcont ⊢
    rw [hcont]
    simp only [if_true]
    rw [splitChar_append_sep '?' a b h]
    have h0 : (a :: splitChar '?' b).getD 0 [] = a := rfl
    have h1 : (a :: splitChar '?' b).getD 1 [] = (splitChar '?' b).getD 0 [] := rfl
    rw [h0, h1, splitChar_head]
  · have hcont : (String.mk a).data.contains '?' = false := by
      simpa using h
    unfold ModuleId.fromString
    rw [show (String.mk a).data = a from rfl] at hcont ⊢
    rw [hcont]
    simp

/-- Witness for the amended C2 at a concrete input with a second `?`. -/
theorem fromString_splits_on_first_question_mark_witness :
    ModuleId.fromString ⟨['x'] ++ '?' :: ['q', '?', 'z']⟩
      = { relative_path := ⟨['x']⟩,
          query_string := ⟨['q', '?', 'z'].takeWhile (fun c => !(c == '?'))⟩ } ∧
    ModuleId.fromString ⟨['x']⟩ = { relative_path := ⟨['x']⟩, query_string := "" } :=
  fromString_splits_on_first_question_mark ['x'] ['q', '?', 'z'] (by decide)

/-- C3: the `is_typescript()` guard in `process_module` excludes `Jsx`
modules, so the `Jsx => react(...)` match arm is dead code and a Jsx module's
AST is returned untouched (its JSX syntax is NOT rewritten), even though the
`react` transform the arm would apply does rewrite it; `Ts` and `Tsx` are
transformed as described. -/
theorem process_module_jsx_arm_dead :
    FarmPluginScript.process_module ModuleType.Jsx
        (ModuleMetaData.Script
          { ast := { body := [], hasTypeAnnotations := false, hasJsxSyntax := true }
            top_level_mark := 0
            unresolved_mark := 0
            module_system := ModuleSystem.CommonJs })
      = Except.ok (ModuleMetaData.Script
          { ast := { body := [], hasTypeAnnotations := false, hasJsxSyntax := true }
            top_level_mark := 0
            unresolved_mark := 0
            module_system := ModuleSystem.CommonJs }) ∧
    (react 0 { body := [], hasTypeAnnotations := false, hasJsxSyntax := true }).hasJsxSyntax
      = false ∧
    (FarmPluginScript.process_module ModuleType.Ts
        (ModuleMetaData.Script
          { ast := { body := [], hasTypeAnnotations := true, hasJsxSyntax := false }
            top_level_mark := 0
            unresolved_mark := 0
            module_system := ModuleSystem.CommonJs })
      = Except.ok (ModuleMetaData.Script
          { ast := { body := [], hasTypeAnnotations := false, hasJsxSyntax := false }
            top_level_mark := 0
            unresolved_mark := 0
            module_system := ModuleSystem.CommonJs })) ∧
    (FarmPluginScript.process_module ModuleType.Tsx
        (ModuleMetaData.Script
          { ast := { body := [], hasTypeAnnotations := true, hasJsxSyntax := true }
            top_level_mark := 0
            unresolved_mark := 0
            module_system := ModuleSystem.CommonJs })
      = Except.ok (ModuleMetaData.Script
          { ast := { body := [], hasTypeAnnotations := false, hasJsxSyntax := false }
            top_level_mark := 0
            unresolved_mark := 0
            module_system := ModuleSystem.CommonJs })) :=
  ⟨rfl, rfl, rfl, rfl⟩

/-- C4: whenever `FarmPluginScript::parse` succeeds, the recorded metadata is
the `Script` variant whose `module_system` is `EsModule` iff the parsed body
contains a module-declaration item, `CommonJs` otherwise — and never
`Hybrid`. -/
theorem parse_module_system_classification (mt : ModuleType) (ast : SwcModule)
    (tlm urm : Nat) (meta : ModuleMetaData)
    (h : FarmPluginScript.parse mt ast tlm urm = some meta) :
    ∃ smd, meta = ModuleMetaData.Script smd ∧
      (smd.module_system = ModuleSystem.EsModule ↔ ModuleItem.moduleDecl ∈ ast.body) ∧
      (smd.module_system = ModuleSystem.CommonJs ↔ ModuleItem.moduleDecl ∉ ast.body) ∧
      smd.module_system ≠ ModuleSystem.Hybrid := by
  unfold FarmPluginScript.parse at h
  cases hs : syntaxFromModuleType mt with
  | none =>
    rw [hs] at h
    simp at h
  | some syn =>
    rw [hs] at h
    simp only [Option.some.injEq] at h
    subst h
    refine ⟨_, rfl, ?_⟩
    simp only [resolver]
    by_cases hb : ModuleItem.moduleDecl ∈ ast.body
    · have hany : ast.body.any (fun item =>
          match item with
          | ModuleItem.moduleDecl => true
          | ModuleItem.stmt => false) = true := by
        rw [List.any_eq_true]
        exact ⟨ModuleItem.moduleDecl, hb, rfl⟩
      simp [hany, hb]
    · have hany : ast.body.any (fun item =>
          match item with
          | ModuleItem.moduleDecl => true
          | ModuleItem.stmt => false) = false := by
        rw [Bool.eq_false_iff]
        intro hc
        rw [List.any_eq_true] at hc
        rcases hc with ⟨x, hx, hpx⟩
        cases x with
        | moduleDecl => exact hb hx
        | stmt => exact Bool.false_ne_true hpx
      simp [hany, hb]

/-- Witness for C4 at a one-import module parsed as plain Js. -/
theorem parse_module_system_classification_witness :
    ∃ smd,
      ModuleMetaData.Script
          { ast := { body := [ModuleItem.moduleDecl], hasTypeAnnotations := false,
                     hasJsxSyntax := false }
            top_level_mark := 1
            unresolved_mark := 2
            module_system := ModuleSystem.EsModule }
        = ModuleMetaData.Script smd ∧
      (smd.module_system = ModuleSystem.EsModule ↔
        ModuleItem.moduleDecl ∈ [ModuleItem.moduleDecl]) ∧
      (smd.module_system = ModuleSystem.CommonJs ↔
        ModuleItem.moduleDecl ∉ [ModuleItem.moduleDecl]) ∧
      smd.module_system ≠ ModuleSystem.Hybrid :=
  parse_module_system_classification ModuleType.Js
    { body := [ModuleItem.moduleDecl], hasTypeAnnotations := false, hasJsxSyntax := false }
    1 2 _ rfl

/-! ## Digest shape lemmas -/

theorem blakeCompress_length (h block : List Nat) (t : Nat) (last : Bool) :
    (blakeCompress h block t last).length = 8 := by
  simp [blakeCompress]

theorem blakeLoop_length : ∀ (fuel : Nat) (h msg : List Nat) (p : Nat),
    (blakeLoop fuel h msg p).length = 8 := by
  intro fuel
  induction fuel with
  | zero => intro h msg p; exact blakeCompress_length _ _ _ _
  | succ n ih =>
    intro h msg p
    simp only [blakeLoop]
    split
    · exact blakeCompress_length _ _ _ _
    · exact ih _ _ _

theorem le64Encode_length (w : Nat) : (le64Encode w).length = 8 := rfl

theorem flatten_map_le64Encode_length (hs : List Nat) :
    ((hs.map le64Encode).flatten).length = 8 * hs.length := by
  induction hs with
  | nil => rfl
  | cons x xs ih =>
    rw [List.map_cons, List.flatten_cons, List.length_append, le64Encode_length, ih,
      List.length_cons]
    ring

theorem blake2bVar_length_four (msg : List Nat) : (blake2bVar 4 msg).length = 4 := by
  simp only [blake2bVar]
  rw [List.length_take, flatten_map_le64Encode_length, blakeLoop_length]
  decide

theorem getD_mem_of_default_mem {α : Type} (l : List α) (n : Nat) (d : α)
    (hd : d ∈ l) : l.getD n d ∈ l := by
  rw [List.getD_eq_getElem?_getD]
  cases h : l[n]? with
  | none => simpa using hd
  | some a =>
    have ha : a ∈ l := List.getElem?_mem h
    simpa using ha

theorem hexDigitChar_mem_digits (n : Nat) : hexDigitChar n ∈ "0123456789abcdef".data :=
  getD_mem_of_default_mem _ _ _ (by decide)

theorem hexEncode_length (bs : List Nat) : (hexEncode bs).length = 2 * bs.length := by
  show ((bs.map hexByte).flatten).length = 2 * bs.length
  induction bs with
  | nil => rfl
  | cons x xs ih =>
    rw [List.map_cons, List.flatten_cons, List.length_append, ih, List.length_cons]
    have hx : (hexByte x).length = 2 := rfl
    rw [hx]
    ring

theorem hexEncode_chars (bs : List Nat) (c : Char) (hc : c ∈ (hexEncode bs).data) :
    c ∈ "0123456789abcdef".data := by
  have hc2 : c ∈ (bs.map hexByte).flatten := hc
  rcases List.mem_flatten.mp hc2 with ⟨l, hl, hcl⟩
  rcases List.mem_map.mp hl with ⟨b, _, rfl⟩
  rcases List.mem_cons.mp hcl with h1 | h2
  · rw [h1]
    exact hexDigitChar_mem_digits _
  · rcases List.mem_cons.mp h2 with h1 | h0
    · rw [h1]
      exact hexDigitChar_mem_digits _
    · simp at h0

/-- C5: the production hash is a pure deterministic function of the
development string (equal development strings give equal hashes), and it is
always a fixed-width 8-character string of lowercase hex digits (a 4-byte
digest of the development form, hex-encoded). -/
theorem moduleId_hash_deterministic (m1 m2 : ModuleId)
    (h : m1.toString = m2.toString) :
    m1.hash = m2.hash ∧ m1.hash.length = 8 ∧
      ∀ c ∈ m1.hash.data, c ∈ "0123456789abcdef".data := by
  refine ⟨?_, ?_, ?_⟩
  · unfold ModuleId.hash
    rw [h]
  · show (hexEncode (blake2bVar LEN (utf8Bytes m1.toString))).length = 8
    rw [hexEncode_length, show LEN = 4 from rfl, blake2bVar_length_four]
  · intro c hc
    exact hexEncode_chars _ c hc

/-- Witness for C5 at the repository test module id. -/
theorem moduleId_hash_deterministic_witness :
    (ModuleId.mk "module.html" "").hash = (ModuleId.mk "module.html" "").hash ∧
    (ModuleId.mk "module.html" "").hash.length = 8 ∧
    ∀ c ∈ (ModuleId.mk "module.html" "").hash.data, c ∈ "0123456789abcdef".data :=
  moduleId_hash_deterministic (ModuleId.mk "module.html" "")
    (ModuleId.mk "module.html" "") rfl

set_option maxRecDepth 10000 in
/-- C6: the spec's golden examples, including the pinned production digest
from the repository's own test. -/
theorem moduleId_golden_examples :
    (ModuleId.new "/root/module.html" [] "/root").id Mode.Development = "module.html" ∧
    (ModuleId.new "/root/module.html" [] "/root").id Mode.Production = "5de94ab0" ∧
    ((ModuleId.new "/root/module.html" [] "/root").id Mode.Production).length = 8 ∧
    (ModuleId.new "/root/packages/test/module.html" [] "/root/packages/app").id
        Mode.Development = "../test/module.html" :=
  ⟨by decide, by decide, by decide, by decide⟩

/-! ## Accessor lemmas (one per typed accessor, assembled for C7) -/

theorem as_script_ok_iff (m : ModuleMetaData) (s : ScriptModuleMetaData) :
    m.as_script = Except.ok s ↔ m = ModuleMetaData.Script s := by
  cases m <;> simp [ModuleMetaData.as_script]

theorem as_script_mut_ok_iff (m : ModuleMetaData) (s : ScriptModuleMetaData) :
    m.as_script_mut = Except.ok s ↔ m = ModuleMetaData.Script s := by
  cases m <;> simp [ModuleMetaData.as_script_mut]

theorem as_css_ok_iff (m : ModuleMetaData) (c : CssModuleMetaData) :
    m.as_css = Except.ok c ↔ m = ModuleMetaData.Css c := by
  cases m <;> simp [ModuleMetaData.as_css]

theorem as_css_mut_ok_iff (m : ModuleMetaData) (c : CssModuleMetaData) :
    m.as_css_mut = Except.ok c ↔ m = ModuleMetaData.Css c := by
  cases m <;> simp [ModuleMetaData.as_css_mut]

theorem as_html_ok_iff (m : ModuleMetaData) (d : HtmlModuleMetaData) :
    m.as_html = Except.ok d ↔ m = ModuleMetaData.Html d := by
  cases m <;> simp [ModuleMetaData.as_html]

theorem as_html_mut_ok_iff (m : ModuleMetaData) (d : HtmlModuleMetaData) :
    m.as_html_mut = Except.ok d ↔ m = ModuleMetaData.Html d := by
  cases m <;> simp [ModuleMetaData.as_html_mut]

theorem as_custom_ok_iff (m : ModuleMetaData) (t v : String) :
    m.as_custom t = Except.ok v ↔ m = ModuleMetaData.Custom ⟨t, v⟩ := by
  cases m with
  | Custom box =>
    cases box with
    | mk tn pl =>
      by_cases htn : tn = t
      · subst htn
        simp [ModuleMetaData.as_custom]
      · simp [ModuleMetaData.as_custom, htn]
  | Script s => simp [ModuleMetaData.as_custom]
  | Css c => simp [ModuleMetaData.as_custom]
  | Html d => simp [ModuleMetaData.as_custom]

theorem as_custom_mut_ok_iff (m : ModuleMetaData) (t v : String) :
    m.as_custom_mut t = Except.ok v ↔ m = ModuleMetaData.Custom ⟨t, v⟩ := by
  cases m with
  | Custom box =>
    cases box with
    | mk tn pl =>
      by_cases htn : tn = t
      · subst htn
        simp [ModuleMetaData.as_custom_mut]
      · simp [ModuleMetaData.as_custom_mut, htn]
  | Script s => simp [ModuleMetaData.as_custom_mut]
  | Css c => simp [ModuleMetaData.as_custom_mut]
  | Html d => simp [ModuleMetaData.as_custom_mut]

/-- C7: each typed accessor (also the `_mut` forms) succeeds with the inner
data exactly when the matching variant is active, and fails loudly
(`Except.error`, the model of the source's `panic!`) against any other
variant; `as_custom` additionally fails on the `Custom` variant itself when
the stored runtime type does not match the requested one. -/
theorem metadata_accessors_checked (m : ModuleMetaData) :
    (∀ s, m.as_script = Except.ok s ↔ m = ModuleMetaData.Script s) ∧
    (∀ s, m.as_script_mut = Except.ok s ↔ m = ModuleMetaData.Script s) ∧
    (∀ c, m.as_css = Except.ok c ↔ m = ModuleMetaData.Css c) ∧
    (∀ c, m.as_css_mut = Except.ok c ↔ m = ModuleMetaData.Css c) ∧
    (∀ d, m.as_html = Except.ok d ↔ m = ModuleMetaData.Html d) ∧
    (∀ d, m.as_html_mut = Except.ok d ↔ m = ModuleMetaData.Html d) ∧
    (∀ t v, m.as_custom t = Except.ok v ↔ m = ModuleMetaData.Custom ⟨t, v⟩) ∧
    (∀ t v, m.as_custom_mut t = Except.ok v ↔ m = ModuleMetaData.Custom ⟨t, v⟩) :=
  ⟨fun s => as_script_ok_iff m s, fun s => as_script_mut_ok_iff m s,
   fun c => as_css_ok_iff m c, fun c => as_css_mut_ok_iff m c,
   fun d => as_html_ok_iff m d, fun d => as_html_mut_ok_iff m d,
   fun t v => as_custom_ok_iff m t v, fun t v => as_custom_mut_ok_iff m t v⟩

/-- Witness for C7: a matching read succeeds with the stored data, a
mismatched-type custom read is rejected. -/
theorem metadata_accessors_checked_witness :
    (ModuleMetaData.Custom ⟨"StructModuleData", "ast"⟩).as_custom "StructModuleData"
        = Except.ok "ast" ∧
    (ModuleMetaData.Custom ⟨"StructModuleData", "ast"⟩).as_custom "Other"
        ≠ Except.ok "ast" :=
  ⟨((metadata_accessors_checked (ModuleMetaData.Custom ⟨"StructModuleData", "ast"⟩)).2.2.2.2.2.2.1
      "StructModuleData" "ast").mpr rfl,
   fun h => by
    have hiff := ((metadata_accessors_checked
      (ModuleMetaData.Custom ⟨"StructModuleData", "ast"⟩)).2.2.2.2.2.2.1 "Other" "ast").mp h
    simp at hiff⟩

/-- C8: `CompilationContext::new` runs the plugins' `config` hooks over the
configuration before any other work; any hook failure is propagated and no
context is constructed, while success yields a context holding the updated
config, the plugin driver fixed at construction, and fresh graphs/cache. -/
theorem compilationContext_new_config_first (config : Config) (plugins : List Plugin) :
    (∀ e, (PluginDriver.new plugins).config config = Except.error e →
        CompilationContext.new config plugins = Except.error e) ∧
    (∀ cfg, (PluginDriver.new plugins).config config = Except.ok cfg →
        CompilationContext.new config plugins = Except.ok
          { config := cfg
            module_graph := ModuleGraph.new
            module_group_map := ModuleGroupMap.new
            plugin_driver := PluginDriver.new plugins
            resource_pot_graph := ResourcePotGraph.new
            resources_map := []
            cache_manager := CacheManager.new
            meta := ContextMetaData.new }) := by
  constructor
  · intro e he
    simp only [CompilationContext.new]
    rw [he]
  · intro cfg hc
    simp only [CompilationContext.new]
    rw [hc]

/-- Witness for C8: a failing config hook aborts construction with its error. -/
theorem compilationContext_new_config_first_witness :
    CompilationContext.new { mode := Mode.Development, root := "/" }
        [{ name := "failing", config := fun _ => Except.error "boom" }]
      = Except.error "boom" :=
  (compilationContext_new_config_first { mode := Mode.Development, root := "/" }
    [{ name := "failing", config := fun _ => Except.error "boom" }]).1 "boom" rfl

/-- C9: `FarmPluginScript::load` returns a handled result (the file content
plus the derived module type) exactly when the path extension maps to a
script module type (given the file is readable); for any other extension it
returns `Ok(None)` regardless of the file oracle, i.e. without reading. -/
theorem load_claims_scripts_only (path content : String)
    (readFile : String → Except String String)
    (h : readFile path = Except.ok content) :
    (FarmPluginScript.load readFile path
        = Except.ok (some { content := content, module_type := moduleTypeFromId path })
      ↔ (moduleTypeFromId path).is_script = true) ∧
    ((moduleTypeFromId path).is_script = false →
      ∀ rf, FarmPluginScript.load rf path = Except.ok none) := by
  constructor
  · constructor
    · intro hl
      by_contra hns
      rw [Bool.not_eq_true] at hns
      simp only [FarmPluginScript.load, hns, Bool.false_eq_true, if_false] at hl
      simp at hl
    · intro hs
      simp only [FarmPluginScript.load, hs, if_true]
      rw [h]
  · intro hns rf
    simp [FarmPluginScript.load, hns]

/-- Witness for C9 at a tsx path with a trivial file oracle. -/
theorem load_claims_scripts_only_witness :
    FarmPluginScript.load (fun _ => Except.ok "code") "/src/App.tsx"
        = Except.ok (some { content := "code",
                            module_type := moduleTypeFromId "/src/App.tsx" }) ∧
    FarmPluginScript.load (fun _ => Except.ok "code") "/src/App.css"
        = Except.ok none :=
  ⟨(load_claims_scripts_only "/src/App.tsx" "code" (fun _ => Except.ok "code") rfl).1.mpr
      (by decide),
   (load_claims_scripts_only "/src/App.css" "code" (fun _ => Except.ok "code") rfl).2
      (by decide) (fun _ => Except.ok "code")⟩
